import Mathlib

set_option maxHeartbeats 1000000

/-!
Verification development for the ISC synchronization-primitive headers
(`isc/refcount.h`, `isc/queue.h`, `isc/rwlock.h`).

The embedding is sequential: each C macro becomes a state transformer.
A fatal assertion failure (`ISC_REQUIRE` / `ISC_INSIST`) and undefined
behaviour (dereferencing the `(void *)(-1)` sentinel) are both modelled
as `none`.
-/

/-! ## AtomicCounter: isc/refcount.h, stdatomic variant (lines 114-159)

`isc_refcount_t` holds a single 32-bit signed counter `refs`
(`atomic_int_fast32_t`).  Two views of the same source lines are given:
the boundary-free abstraction over an unbounded `Int` (sufficient for
the small-count behaviour), and the bit-faithful `*_i32` operations in
which the fetch-add wraps at the `int32_t` boundary via `wrap32`, as
C11 atomic arithmetic on `atomic_int_fast32_t` does — the view that
matters when the whole value range is quantified over.  The
out-parameter `targetp` is modelled by a `Bool` saying whether it is
non-NULL, and the value stored through it (when non-NULL) is returned
as an `Option Int`. -/

structure isc_refcount where
  refs : Int
deriving DecidableEq, Repr

/-- Modelled from the spec: `isc_refcount_init` is only declared in the
header (`isc_result_t isc_refcount_init(isc_refcount_t *ref, unsigned int n)`,
line 306); its body is outside the provided sources.  Spec 4.1:
`init(ref, n)`: sets count to `n` (header comment: there will be `n`
initial references). -/
def isc_refcount_init (n : Nat) : isc_refcount := ⟨(n : Int)⟩

/-- `isc_refcount_current`: atomic load of `refs` (line 124). -/
def isc_refcount_current (rp : isc_refcount) : Int := rp.refs

/-- `isc_refcount_destroy` (line 127): `ISC_REQUIRE(isc_refcount_current(rp) == 0)`. -/
def isc_refcount_destroy (rp : isc_refcount) : Option Unit :=
  if isc_refcount_current rp = 0 then some () else none

/-- `isc_refcount_increment0` (lines 129-137): unconditional
`atomic_fetch_add(&refs, 1)`; if `targetp` is non-NULL it receives
`prev + 1`.  No check of any kind on the previous value. -/
def isc_refcount_increment0 (rp : isc_refcount) (targetpNonNull : Bool) :
    isc_refcount × Option Int :=
  let prev := rp.refs
  (⟨prev + 1⟩, if targetpNonNull then some (prev + 1) else none)

/-- `isc_refcount_increment` (lines 139-148): `atomic_fetch_add(&refs, 1)`
followed by `ISC_REQUIRE(prev > 0)`; on success `targetp` (when non-NULL)
receives `prev + 1`. -/
def isc_refcount_increment (rp : isc_refcount) (targetpNonNull : Bool) :
    Option (isc_refcount × Option Int) :=
  let prev := rp.refs
  if prev > 0 then
    some (⟨prev + 1⟩, if targetpNonNull then some (prev + 1) else none)
  else none

/-- `isc_refcount_decrement` (lines 150-159): `atomic_fetch_sub(&refs, 1)`
followed by `ISC_REQUIRE(prev > 0)`; on success `targetp` (when non-NULL)
receives `prev - 1`. -/
def isc_refcount_decrement (rp : isc_refcount) (targetpNonNull : Bool) :
    Option (isc_refcount × Option Int) :=
  let prev := rp.refs
  if prev > 0 then
    some (⟨prev - 1⟩, if targetpNonNull then some (prev - 1) else none)
  else none

/-- Wraparound of a mathematical integer into the value range
`[-2147483648, 2147483647]` of `int32_t`: C11 atomic fetch-add/sub on
`atomic_int_fast32_t` wraps silently at the 32-bit boundary. -/
def wrap32 (n : Int) : Int :=
  (n + 2147483648) % 4294967296 - 2147483648

/-- `isc_refcount_increment0` (lines 129-137), bit-faithful `int32_t`
view: the unconditional `atomic_fetch_add(&refs, 1)` wraps at the
32-bit boundary; no check of any kind on the previous value. -/
def isc_refcount_increment0_i32 (rp : isc_refcount) (targetpNonNull : Bool) :
    isc_refcount × Option Int :=
  let prev := rp.refs
  (⟨wrap32 (prev + 1)⟩,
    if targetpNonNull then some (wrap32 (prev + 1)) else none)

/-- `isc_refcount_increment` (lines 139-148), bit-faithful `int32_t`
view: the wrapping fetch-add followed by `ISC_REQUIRE(prev > 0)`. -/
def isc_refcount_increment_i32 (rp : isc_refcount) (targetpNonNull : Bool) :
    Option (isc_refcount × Option Int) :=
  let prev := rp.refs
  if prev > 0 then
    some (⟨wrap32 (prev + 1)⟩,
      if targetpNonNull then some (wrap32 (prev + 1)) else none)
  else none

/-- `isc_refcount_decrement` (lines 150-159), bit-faithful `int32_t`
view: the wrapping fetch-sub followed by `ISC_REQUIRE(prev > 0)`. -/
def isc_refcount_decrement_i32 (rp : isc_refcount) (targetpNonNull : Bool) :
    Option (isc_refcount × Option Int) :=
  let prev := rp.refs
  if prev > 0 then
    some (⟨wrap32 (prev - 1)⟩,
      if targetpNonNull then some (wrap32 (prev - 1)) else none)
  else none

/-! ## ConcurrentQueue: isc/queue.h

Intrusive two-lock queue.  Elements are identified by natural numbers;
the heap of embedded `ISC_QLINK` fields is a function `Nat → Link`.  A
pointer is `null` ("end of list"), the `(void *)(-1)` sentinel
(`minus1`, "not linked"), or a reference to an element.  The mutex
operations of the macros order the interleavings; the embedding is the
sequential execution, in source order, of each macro body. -/

inductive Ptr where
  | null : Ptr
  | minus1 : Ptr
  | elt : Nat → Ptr
deriving DecidableEq, Repr

/-- The `ISC_QLINK(type)` pair of fields (line 36). -/
structure Link where
  prev : Ptr
  next : Ptr
deriving DecidableEq, Repr

/-- The `ISC_QUEUE(type)` fields `head`/`tail` (line 45) together with
the heap of per-element links. -/
structure QueueState where
  head : Ptr
  tail : Ptr
  links : Nat → Link

/-- Heap update at one element. -/
def setLink (ls : Nat → Link) (i : Nat) (v : Link) : Nat → Link :=
  fun j => if j = i then v else ls j

/-- `ISC_QLINK_INIT` (lines 38-41): set both link fields of `elt` to the
`(void *)(-1)` sentinel. -/
def ISC_QLINK_INIT (q : QueueState) (e : Nat) : QueueState :=
  { q with links := setLink q.links e ⟨Ptr.minus1, Ptr.minus1⟩ }

/-- `ISC_QLINK_LINKED` (line 43): `elt->link.next != (void *)(-1)`. -/
def ISC_QLINK_LINKED (q : QueueState) (e : Nat) : Bool :=
  decide ((q.links e).next ≠ Ptr.minus1)

/-- `ISC_QUEUE_INIT` (lines 50-55): both mutexes initialized (not
modelled), `tail = head = NULL`.  The pre-existing heap of links is the
argument. -/
def ISC_QUEUE_INIT (ls : Nat → Link) : QueueState :=
  ⟨Ptr.null, Ptr.null, ls⟩

/-- `ISC_QUEUE_EMPTY` (line 57): `head == NULL`. -/
def ISC_QUEUE_EMPTY (q : QueueState) : Bool :=
  decide (q.head = Ptr.null)

/-- `ISC_QUEUE_DESTROY` (lines 59-64): `ISC_QLINK_INSIST(empty)`, then
mutex destruction (not modelled).  `ISC_QLINK_INSIST` (lines 30-34) is a
fatal assertion only when the translation unit defines
`ISC_QUEUE_CHECKINIT`; otherwise it expands to `(void)0`.  The flag
`checkinit` selects that build mode. -/
def ISC_QUEUE_DESTROY (checkinit : Bool) (q : QueueState) : Option Unit :=
  if checkinit && !ISC_QUEUE_EMPTY q then none else some ()

/-- `ISC_QUEUE_PUSH` (lines 92-114).  Sequentially: the
`ISC_QLINK_INSIST(!ISC_QLINK_LINKED(elt))` (fatal only under
`ISC_QUEUE_CHECKINIT`); `headlocked` is true exactly when `tail == NULL`
at entry; `elt->link.prev = tail`, `elt->link.next = NULL`; when `tail`
is an element its `next` is pointed at `elt`; `tail = elt`; under
`headlocked`, `head = elt` when `head == NULL`.  A `(void *)(-1)` tail
would be dereferenced: modelled as `none`. -/
def ISC_QUEUE_PUSH (checkinit : Bool) (q : QueueState) (e : Nat) :
    Option QueueState :=
  if checkinit && ISC_QLINK_LINKED q e then none
  else
    match q.tail with
    | Ptr.null =>
        let q1 := { q with links := setLink q.links e ⟨Ptr.null, Ptr.null⟩ }
        let q2 := { q1 with tail := Ptr.elt e }
        some (if q2.head = Ptr.null then { q2 with head := Ptr.elt e } else q2)
    | Ptr.elt t =>
        let q1 := { q with links := setLink q.links e ⟨Ptr.elt t, Ptr.null⟩ }
        let q2 := { q1 with
          links := setLink q1.links t ⟨(q1.links t).prev, Ptr.elt e⟩ }
        some { q2 with tail := Ptr.elt e }
    | Ptr.minus1 => none

/-- `ISC_QUEUE_POP` (lines 116-137).  `ret = head`; when `ret` is NULL
the loop body never runs and the state is untouched; when `ret->link.next`
is NULL the double-checked taillock branch clears both `head` and `tail`;
otherwise `head = ret->link.next` and the new head's `prev` is cleared.
A popped element finally gets both link fields set to the sentinel.
Dereferencing a `(void *)(-1)` pointer is `none`. -/
def ISC_QUEUE_POP (q : QueueState) : Option (Ptr × QueueState) :=
  match q.head with
  | Ptr.null => some (Ptr.null, q)
  | Ptr.minus1 => none
  | Ptr.elt r =>
      match (q.links r).next with
      | Ptr.null =>
          let q1 := { q with head := Ptr.null, tail := Ptr.null }
          some (Ptr.elt r,
            { q1 with links := setLink q1.links r ⟨Ptr.minus1, Ptr.minus1⟩ })
      | Ptr.elt n =>
          let q1 := { q with
            head := Ptr.elt n
            links := setLink q.links n ⟨Ptr.null, (q.links n).next⟩ }
          some (Ptr.elt r,
            { q1 with links := setLink q1.links r ⟨Ptr.minus1, Ptr.minus1⟩ })
      | Ptr.minus1 => none

/-- The shared body of `ISC_QUEUE_UNLINK` / `ISC_QUEUE_UNLINKIFLINKED`
(lines 144-151 and 162-169): splice `elt` out, updating `head` or the
predecessor's `next`, and `tail` or the successor's `prev`, re-reading
each field at the program point where the C reads it. -/
def unlinkBody (q : QueueState) (e : Nat) : Option QueueState :=
  let step1 : Option QueueState :=
    match (q.links e).prev with
    | Ptr.null => some { q with head := (q.links e).next }
    | Ptr.elt p =>
        some { q with links := setLink q.links p ⟨(q.links p).prev, (q.links e).next⟩ }
    | Ptr.minus1 => none
  match step1 with
  | none => none
  | some q1 =>
      match (q1.links e).next with
      | Ptr.null => some { q1 with tail := (q1.links e).prev }
      | Ptr.elt n =>
          some { q1 with links := setLink q1.links n ⟨(q1.links e).prev, (q1.links n).next⟩ }
      | Ptr.minus1 => none

/-- Splice followed by the final
`elt->link.next = elt->link.prev = (void *)(-1)` (lines 154, 173). -/
def unlinkFull (q : QueueState) (e : Nat) : Option QueueState :=
  match unlinkBody q e with
  | none => none
  | some q2 => some { q2 with links := setLink q2.links e ⟨Ptr.minus1, Ptr.minus1⟩ }

/-- `ISC_QUEUE_UNLINK` (lines 139-155): `ISC_QLINK_INSIST(LINKED)` (fatal
only under `ISC_QUEUE_CHECKINIT`), then the splice and the sentinel
assignment. -/
def ISC_QUEUE_UNLINK (checkinit : Bool) (q : QueueState) (e : Nat) :
    Option QueueState :=
  if checkinit && !ISC_QLINK_LINKED q e then none
  else unlinkFull q e

/-- `ISC_QUEUE_UNLINKIFLINKED` (lines 157-174): the splice runs only when
`ISC_QLINK_LINKED(elt)`; the final sentinel assignment to `elt`'s link
fields runs unconditionally. -/
def ISC_QUEUE_UNLINKIFLINKED (q : QueueState) (e : Nat) : Option QueueState :=
  if ISC_QLINK_LINKED q e then unlinkFull q e
  else some { q with links := setLink q.links e ⟨Ptr.minus1, Ptr.minus1⟩ }

/-! ## Queue representation predicate

`reprQ q l` says the queue `q` currently holds exactly the elements of
`l`, in order, as a well-formed doubly-linked chain.  `chainOk ls pv nx
l` checks the chain: the first element's `prev` is `pv`, consecutive
elements point at each other, and the final element's `next` is `nx`. -/

/-- The pointer to the first element of `l`, or `nx` when `l` is empty. -/
def headPtr2 (nx : Ptr) : List Nat → Ptr
  | [] => nx
  | a :: _ => Ptr.elt a

/-- The pointer to the last element of `l`, or `pv` when `l` is empty. -/
def lastPtr (pv : Ptr) : List Nat → Ptr
  | [] => pv
  | a :: r => lastPtr (Ptr.elt a) r

/-- Doubly-linked chain check for the segment `l` between the incoming
pointer `pv` and the outgoing pointer `nx`. -/
def chainOk (ls : Nat → Link) (pv nx : Ptr) : List Nat → Bool
  | [] => true
  | a :: rest =>
      (decide ((ls a).prev = pv) && decide ((ls a).next = headPtr2 nx rest))
        && chainOk ls (Ptr.elt a) nx rest

/-- Queue `q` represents the element list `l`. -/
def reprQ (q : QueueState) (l : List Nat) : Prop :=
  l.Nodup ∧ chainOk q.links Ptr.null Ptr.null l = true ∧
  q.head = headPtr2 Ptr.null l ∧ q.tail = lastPtr Ptr.null l

/-- The structural invariant of claim C7: the queue is empty exactly
when `head == tail == NULL`, and in a non-empty queue the head's `prev`
and the tail's `next` are NULL. -/
def queueInv (q : QueueState) : Prop :=
  (ISC_QUEUE_EMPTY q = true ↔ (q.head = Ptr.null ∧ q.tail = Ptr.null)) ∧
  (∀ h : Nat, q.head = Ptr.elt h → (q.links h).prev = Ptr.null) ∧
  (∀ t : Nat, q.tail = Ptr.elt t → (q.links t).next = Ptr.null)

/-! ## ReaderWriterLock: isc/rwlock.h

Only `struct isc_rwlock` (lines 51-117) is in the sources; the lock and
unlock code (`rwlock.c`) is not.  The grant conditions are therefore
modelled from the spec as a labelled transition system over the set of
threads currently holding the lock. -/

/-- The mode in which a thread holds the lock (`isc_rwlocktype_t`,
lines 35-39). -/
inductive RwMode where
  | free : RwMode
  | read : RwMode
  | write : RwMode
deriving DecidableEq, Repr

/-- Modelled from the spec: the externally observable state of an
`isc_rwlock_t` is which thread holds it in which mode (the counters
`cnt_and_flag`, `write_requests`, `write_completions` of the struct are
the implementation of this view; `rwlock.c` is not in the sources). -/
structure RwState where
  holders : Nat → RwMode

/-- Update the mode of one thread. -/
def setMode (h : Nat → RwMode) (t : Nat) (m : RwMode) : Nat → RwMode :=
  fun u => if u = t then m else h u

/-- Modelled from the spec: the lock starts with no holders
(`isc_rwlock_init`). -/
def rwInit : RwState := ⟨fun _ => RwMode.free⟩

/-- Modelled from the spec (section 4.2): the transitions of the
reader-writer lock.  `lock(read)` completes only while the writer-active
flag is clear; `lock(write)` completes only once it is the writer's
ticket turn and the reader count has reached zero; `tryupgrade` succeeds
only for the sole reader; `downgrade` converts a held write lock into a
held read lock without releasing it. -/
inductive RwStep : RwState → RwState → Prop where
  | lockRead (s : RwState) (t : Nat) :
      s.holders t = RwMode.free →
      (∀ u, s.holders u ≠ RwMode.write) →
      RwStep s ⟨setMode s.holders t RwMode.read⟩
  | lockWrite (s : RwState) (t : Nat) :
      s.holders t = RwMode.free →
      (∀ u, s.holders u = RwMode.free) →
      RwStep s ⟨setMode s.holders t RwMode.write⟩
  | unlockRead (s : RwState) (t : Nat) :
      s.holders t = RwMode.read →
      RwStep s ⟨setMode s.holders t RwMode.free⟩
  | unlockWrite (s : RwState) (t : Nat) :
      s.holders t = RwMode.write →
      RwStep s ⟨setMode s.holders t RwMode.free⟩
  | tryupgrade (s : RwState) (t : Nat) :
      s.holders t = RwMode.read →
      (∀ u, u ≠ t → s.holders u = RwMode.free) →
      RwStep s ⟨setMode s.holders t RwMode.write⟩
  | downgrade (s : RwState) (t : Nat) :
      s.holders t = RwMode.write →
      RwStep s ⟨setMode s.holders t RwMode.read⟩

/-- States reachable from the freshly initialized lock. -/
inductive RwReach : RwState → Prop where
  | start : RwReach rwInit
  | next (s s' : RwState) : RwReach s → RwStep s s' → RwReach s'

/-- Mutual exclusion: at most one thread holds the lock in write mode,
and while a writer holds it no thread holds it in read mode. -/
def rwMutex (s : RwState) : Prop :=
  (∀ t u, s.holders t = RwMode.write → s.holders u = RwMode.write → t = u) ∧
  (∀ t u, s.holders t = RwMode.write → s.holders u ≠ RwMode.read)

/-! ## Concrete states for witnesses -/

/-- A heap in which every element is unlinked. -/
def allFree : Nat → Link := fun _ => ⟨Ptr.minus1, Ptr.minus1⟩

/-- A heap in which exactly element 5 is linked as the sole member of a
chain. -/
def oneLinks : Nat → Link :=
  fun x => if x = 5 then ⟨Ptr.null, Ptr.null⟩ else ⟨Ptr.minus1, Ptr.minus1⟩

/-- A one-element queue holding element 5. -/
def qOne : QueueState := ⟨Ptr.elt 5, Ptr.elt 5, oneLinks⟩

/-! ## Helper lemmas about chains -/

theorem setLink_self (ls : Nat → Link) (i : Nat) (v : Link) :
    setLink ls i v i = v := by
  simp [setLink]

theorem setLink_ne (ls : Nat → Link) (i j : Nat) (v : Link) (h : j ≠ i) :
    setLink ls i v j = ls j := by
  simp [setLink, h]

theorem chainOk_cons_iff (ls : Nat → Link) (pv nx : Ptr) (a : Nat) (r : List Nat) :
    chainOk ls pv nx (a :: r) = true ↔
      (ls a).prev = pv ∧ (ls a).next = headPtr2 nx r ∧
        chainOk ls (Ptr.elt a) nx r = true := by
  simp [chainOk, Bool.and_eq_true, decide_eq_true_eq, and_assoc]

theorem chainOk_congr (ls ls' : Nat → Link) (nx : Ptr) (l : List Nat)
    (h : ∀ x ∈ l, ls' x = ls x) :
    ∀ pv, chainOk ls' pv nx l = chainOk ls pv nx l := by
  induction l with
  | nil => intro pv; rfl
  | cons a r ih =>
      intro pv
      have ha : ls' a = ls a := h a (by simp)
      have ihr := ih (fun x hx => h x (by simp [hx]))
      simp [chainOk, ha, ihr]

theorem chainOk_not_minus1 (ls : Nat → Link) (nx : Ptr) (l : List Nat)
    (hnx : nx ≠ Ptr.minus1) :
    ∀ pv, chainOk ls pv nx l = true → ∀ x ∈ l, (ls x).next ≠ Ptr.minus1 := by
  induction l with
  | nil => intro pv _ x hx; cases hx
  | cons a r ih =>
      intro pv hc x hx
      rw [chainOk_cons_iff] at hc
      rcases List.mem_cons.mp hx with rfl | hx'
      · rw [hc.2.1]
        cases r with
        | nil => simpa [headPtr2] using hnx
        | cons b r' => simp [headPtr2]
      · exact ih (Ptr.elt a) hc.2.2 x hx'

theorem headPtr2_append (nx : Ptr) (r l2 : List Nat) :
    headPtr2 nx (r ++ l2) = headPtr2 (headPtr2 nx l2) r := by
  cases r <;> simp [headPtr2]

theorem lastPtr_append (l1 l2 : List Nat) :
    ∀ pv, lastPtr pv (l1 ++ l2) = lastPtr (lastPtr pv l1) l2 := by
  induction l1 with
  | nil => intro pv; rfl
  | cons a r ih => intro pv; simp [lastPtr, ih]

theorem lastPtr_mem_of_ne_nil (l : List Nat) (hne : l ≠ []) :
    ∀ pv t, lastPtr pv l = Ptr.elt t → t ∈ l := by
  induction l with
  | nil => exact absurd rfl hne
  | cons a r ih =>
      intro pv t ht
      cases r with
      | nil =>
          simp [lastPtr] at ht
          simp [ht]
      | cons b r' =>
          have := ih (by simp) (Ptr.elt a) t ht
          simp [this]

theorem lastPtr_exists (l : List Nat) (hne : l ≠ []) (pv : Ptr) :
    ∃ t, lastPtr pv l = Ptr.elt t ∧ t ∈ l := by
  induction l generalizing pv with
  | nil => exact absurd rfl hne
  | cons a r ih =>
      cases r with
      | nil => exact ⟨a, rfl, by simp⟩
      | cons b r' =>
          obtain ⟨t, ht, hm⟩ := ih (by simp) (Ptr.elt a)
          exact ⟨t, ht, by simp [List.mem_cons.mp hm]⟩

theorem lastPtr_indep (l : List Nat) (hne : l ≠ []) (pv pv' : Ptr) :
    lastPtr pv l = lastPtr pv' l := by
  cases l with
  | nil => exact absurd rfl hne
  | cons a r => rfl

theorem chainOk_append_iff (ls : Nat → Link) (nx : Ptr) (l1 l2 : List Nat) :
    ∀ pv, chainOk ls pv nx (l1 ++ l2) = true ↔
      (chainOk ls pv (headPtr2 nx l2) l1 = true ∧
        chainOk ls (lastPtr pv l1) nx l2 = true) := by
  induction l1 with
  | nil => intro pv; simp [chainOk, lastPtr]
  | cons a r ih =>
      intro pv
      rw [List.cons_append, chainOk_cons_iff, chainOk_cons_iff, ih (Ptr.elt a),
        headPtr2_append]
      constructor
      · rintro ⟨h1, h2, h3, h4⟩
        exact ⟨⟨h1, h2, h3⟩, by simpa [lastPtr] using h4⟩
      · rintro ⟨⟨h1, h2, h3⟩, h4⟩
        exact ⟨h1, h2, h3, by simpa [lastPtr] using h4⟩

theorem chainOk_reroot (ls : Nat → Link) (pv pv' nx : Ptr) (a : Nat)
    (r : List Nat) (hnm : a ∉ r) (h : chainOk ls pv nx (a :: r) = true) :
    chainOk (setLink ls a ⟨pv', (ls a).next⟩) pv' nx (a :: r) = true := by
  rw [chainOk_cons_iff] at h
  rw [chainOk_cons_iff]
  refine ⟨by simp [setLink_self], by simpa [setLink_self] using h.2.1, ?_⟩
  rw [chainOk_congr ls]
  · exact h.2.2
  · intro x hx
    exact setLink_ne ls a x _ (fun hxa => hnm (hxa ▸ hx))

theorem chainOk_retarget (ls : Nat → Link) (nx nx' : Ptr) (t : Nat) :
    ∀ (l : List Nat) (pv : Ptr), l.Nodup → chainOk ls pv nx l = true →
      lastPtr pv l = Ptr.elt t → t ∈ l →
      chainOk (setLink ls t ⟨(ls t).prev, nx'⟩) pv nx' l = true := by
  intro l
  induction l with
  | nil => intro pv _ _ _ hm; cases hm
  | cons a r ih =>
      intro pv hnd hc hl hm
      rw [chainOk_cons_iff] at hc
      cases r with
      | nil =>
          have hta : t = a := by
            simp [lastPtr] at hl
            exact hl.symm
          subst hta
          rw [chainOk_cons_iff]
          exact ⟨by simp [setLink_self, hc.1], by simp [setLink_self, headPtr2],
            by simp [chainOk]⟩
      | cons b r' =>
          have htr : t ∈ b :: r' :=
            lastPtr_mem_of_ne_nil (b :: r') (by simp) (Ptr.elt a) t
              (by simpa [lastPtr] using hl)
          have hta : a ≠ t := by
            intro hh
            exact (List.nodup_cons.mp hnd).1 (hh ▸ htr)
          rw [chainOk_cons_iff]
          refine ⟨by simp [setLink_ne _ _ _ _ hta, hc.1], ?_, ?_⟩
          · simpa [setLink_ne _ _ _ _ hta, headPtr2] using hc.2.1
          · exact ih (Ptr.elt a) (List.nodup_cons.mp hnd).2 hc.2.2
              (by simpa [lastPtr] using hl) htr

theorem chainOk_last_next (ls : Nat → Link) (nx : Ptr) (t : Nat) :
    ∀ (l : List Nat) (pv : Ptr), chainOk ls pv nx l = true →
      lastPtr pv l = Ptr.elt t → l ≠ [] → (ls t).next = nx := by
  intro l
  induction l with
  | nil => intro pv _ _ h; exact absurd rfl h
  | cons a r ih =>
      intro pv hc hl _
      rw [chainOk_cons_iff] at hc
      cases r with
      | nil =>
          have hta : t = a := by
            simp [lastPtr] at hl
            exact hl.symm
          subst hta
          simpa [headPtr2] using hc.2.1
      | cons b r' =>
          exact ih (Ptr.elt a) hc.2.2 (by simpa [lastPtr] using hl) (by simp)

/-! ## Operation-level representation lemmas -/

theorem push_repr (ci : Bool) (q : QueueState) (l : List Nat) (e : Nat)
    (hr : reprQ q l) (hnl : (q.links e).next = Ptr.minus1) :
    ∃ q', ISC_QUEUE_PUSH ci q e = some q' ∧ reprQ q' (l ++ [e]) := by
  obtain ⟨hnd, hc, hh, ht⟩ := hr
  have hguard : ISC_QLINK_LINKED q e = false := by
    simp [ISC_QLINK_LINKED, hnl]
  have hem : e ∉ l := fun hm =>
    chainOk_not_minus1 q.links Ptr.null l (by simp) Ptr.null hc e hm hnl
  cases l with
  | nil =>
      have ht0 : q.tail = Ptr.null := by simpa [lastPtr] using ht
      have hh0 : q.head = Ptr.null := by simpa [headPtr2] using hh
      refine ⟨⟨Ptr.elt e, Ptr.elt e, setLink q.links e ⟨Ptr.null, Ptr.null⟩⟩,
        ?_, ?_, ?_, ?_, ?_⟩
      · simp [ISC_QUEUE_PUSH, hguard, ht0, hh0]
      · simp
      · simp [chainOk, setLink_self, headPtr2]
      · simp [headPtr2]
      · simp [lastPtr]
  | cons a r =>
      obtain ⟨t, htl, htm⟩ := lastPtr_exists (a :: r) (by simp) Ptr.null
      have hte : t ≠ e := fun hx => hem (hx ▸ htm)
      have ht0 : q.tail = Ptr.elt t := ht.trans htl
      refine ⟨⟨q.head, Ptr.elt e,
        setLink (setLink q.links e ⟨Ptr.elt t, Ptr.null⟩) t
          ⟨((setLink q.links e ⟨Ptr.elt t, Ptr.null⟩) t).prev, Ptr.elt e⟩⟩,
        ?_, ?_, ?_, ?_, ?_⟩
      · simp [ISC_QUEUE_PUSH, hguard, ht0]
      · rw [List.nodup_append]
        refine ⟨hnd, by simp, ?_⟩
        intro x hx hxe
        simp only [List.mem_singleton] at hxe
        exact hem (hxe ▸ hx)
      · rw [chainOk_append_iff]
        constructor
        · rw [chainOk_congr
            (setLink q.links t ⟨(q.links t).prev, Ptr.elt e⟩)]
          · exact chainOk_retarget q.links Ptr.null (Ptr.elt e) t (a :: r)
              Ptr.null hnd hc htl htm
          · intro x hx
            have hxe : x ≠ e := fun hh => hem (hh ▸ hx)
            by_cases hxt : x = t
            · subst hxt
              simp [setLink_self, setLink_ne _ _ _ _ hte]
            · simp [setLink_ne _ _ _ _ hxt, setLink_ne _ _ _ _ hxe]
        · rw [chainOk_cons_iff]
          refine ⟨?_, ?_, by simp [chainOk]⟩
          · simp [setLink_ne _ _ _ _ (Ne.symm hte), setLink_self, htl]
          · simp [setLink_ne _ _ _ _ (Ne.symm hte), setLink_self, headPtr2]
      · simpa [headPtr2] using hh
      · simp [lastPtr_append, lastPtr]
  
theorem pop_repr_nil (q : QueueState) (hr : reprQ q []) :
    ISC_QUEUE_POP q = some (Ptr.null, q) := by
  obtain ⟨_, _, hh, _⟩ := hr
  simp [headPtr2] at hh
  simp [ISC_QUEUE_POP, hh]

theorem pop_repr_cons (q : QueueState) (a : Nat) (r : List Nat)
    (hr : reprQ q (a :: r)) :
    ∃ q', ISC_QUEUE_POP q = some (Ptr.elt a, q') ∧ reprQ q' r ∧
      q'.links a = ⟨Ptr.minus1, Ptr.minus1⟩ := by
  obtain ⟨hnd, hc, hh, ht⟩ := hr
  simp [headPtr2] at hh
  rw [chainOk_cons_iff] at hc
  have ham : a ∉ r := (List.nodup_cons.mp hnd).1
  cases r with
  | nil =>
      have hcn : (q.links a).next = Ptr.null := by simpa [headPtr2] using hc.2.1
      refine ⟨⟨Ptr.null, Ptr.null, setLink q.links a ⟨Ptr.minus1, Ptr.minus1⟩⟩,
        ?_, ⟨by simp, by simp [chainOk], by simp [headPtr2], by simp [lastPtr]⟩,
        by simp [setLink_self]⟩
      simp [ISC_QUEUE_POP, hh, hcn]
  | cons b r' =>
      have hcn : (q.links a).next = Ptr.elt b := by simpa [headPtr2] using hc.2.1
      have hab : a ≠ b := fun hx => ham (by simp [hx])
      refine ⟨⟨Ptr.elt b, q.tail,
        setLink (setLink q.links b ⟨Ptr.null, (q.links b).next⟩) a
          ⟨Ptr.minus1, Ptr.minus1⟩⟩, ?_, ⟨?_, ?_, ?_, ?_⟩, ?_⟩
      · simp [ISC_QUEUE_POP, hh, hcn]
      · exact (List.nodup_cons.mp hnd).2
      · rw [chainOk_congr
          (setLink q.links b ⟨Ptr.null, (q.links b).next⟩)]
        · exact chainOk_reroot q.links (Ptr.elt a) Ptr.null Ptr.null b r'
            (List.nodup_cons.mp (List.nodup_cons.mp hnd).2).1 hc.2.2
        · intro x hx
          exact setLink_ne _ _ _ _ (fun hxa => ham (hxa ▸ hx))
      · simp [headPtr2]
      · rw [ht]
        simp [lastPtr]
      · simp [setLink_self]

theorem unlinkFull_repr (q : QueueState) (l1 l2 : List Nat) (e : Nat)
    (hr : reprQ q (l1 ++ e :: l2)) :
    ∃ q', unlinkFull q e = some q' ∧ reprQ q' (l1 ++ l2) := by
  obtain ⟨hnd0, hc, hh, ht⟩ := hr
  have hnd' : (l1 ++ l2).Nodup :=
    List.Nodup.sublist (List.Sublist.append_left (List.sublist_cons_self e l2) l1) hnd0
  have hnd := List.nodup_append.mp hnd0
  have he1 : e ∉ l1 := fun hx => hnd.2.2 hx (by simp)
  have he2 : e ∉ l2 := (List.nodup_cons.mp hnd.2.1).1
  have hl2nd : l2.Nodup := (List.nodup_cons.mp hnd.2.1).2
  have hd12 : ∀ x ∈ l1, x ∉ l2 := fun x hx hx2 => hnd.2.2 hx (by simp [hx2])
  rw [chainOk_append_iff] at hc
  obtain ⟨hcl1, hcl2⟩ := hc
  rw [chainOk_cons_iff] at hcl2
  obtain ⟨hep, hen, hcl2'⟩ := hcl2
  have hcl1' : chainOk q.links Ptr.null (Ptr.elt e) l1 = true := by
    simpa [headPtr2] using hcl1
  cases l1 with
  | nil =>
      have hep0 : (q.links e).prev = Ptr.null := by simpa [lastPtr] using hep
      cases l2 with
      | nil =>
          have hen0 : (q.links e).next = Ptr.null := by simpa [headPtr2] using hen
          refine ⟨⟨Ptr.null, Ptr.null,
            setLink q.links e ⟨Ptr.minus1, Ptr.minus1⟩⟩, ?_, ?_⟩
          · simp [unlinkFull, unlinkBody, hep0, hen0]
          · exact ⟨by simp, by simp [chainOk], by simp [headPtr2], by simp [lastPtr]⟩
      | cons c l2' =>
          have hen0 : (q.links e).next = Ptr.elt c := by simpa [headPtr2] using hen
          have hce : c ≠ e := fun hx => he2 (by simp [hx])
          refine ⟨⟨Ptr.elt c, q.tail,
            setLink (setLink q.links c ⟨Ptr.null, (q.links c).next⟩) e
              ⟨Ptr.minus1, Ptr.minus1⟩⟩, ?_, ?_, ?_, ?_, ?_⟩
          · simp [unlinkFull, unlinkBody, hep0, hen0, hce,
              setLink_ne _ _ _ _ hce]
          · simpa using hnd'
          · simp only [List.nil_append]
            rw [chainOk_congr
              (setLink q.links c ⟨Ptr.null, (q.links c).next⟩)]
            · exact chainOk_reroot q.links (Ptr.elt e) Ptr.null Ptr.null c l2'
                (List.nodup_cons.mp hl2nd).1 hcl2'
            · intro x hx
              exact setLink_ne _ _ _ _ (fun hxe => he2 (hxe ▸ hx))
          · simp [headPtr2]
          · rw [ht]
            simp [lastPtr]
      
  | cons a l1'' =>
      obtain ⟨p, hpl, hpm⟩ := lastPtr_exists (a :: l1'') (by simp) Ptr.null
      have hpe : p ≠ e := fun hx => he1 (hx ▸ hpm)
      have hep0 : (q.links e).prev = Ptr.elt p := by rw [hep, hpl]
      have heqp : ∀ v : Link, setLink q.links p v e = q.links e :=
        fun v => setLink_ne _ _ _ _ (Ne.symm hpe)
      cases l2 with
      | nil =>
          have hen0 : (q.links e).next = Ptr.null := by simpa [headPtr2] using hen
          refine ⟨⟨q.head, Ptr.elt p,
            setLink (setLink q.links p ⟨(q.links p).prev, Ptr.null⟩) e
              ⟨Ptr.minus1, Ptr.minus1⟩⟩, ?_, ?_, ?_, ?_, ?_⟩
          · simp [unlinkFull, unlinkBody, hep0, hen0, heqp]
          · simpa using hnd'
          · simp only [List.append_nil]
            rw [chainOk_congr
              (setLink q.links p ⟨(q.links p).prev, Ptr.null⟩)]
            · exact chainOk_retarget q.links (Ptr.elt e) Ptr.null p (a :: l1'')
                Ptr.null hnd.1 hcl1' hpl hpm
            · intro x hx
              exact setLink_ne _ _ _ _ (fun hxe => he1 (hxe ▸ hx))
          · simpa [headPtr2] using hh
          · simp [hpl]
      | cons c l2' =>
          have hen0 : (q.links e).next = Ptr.elt c := by simpa [headPtr2] using hen
          have hce : c ≠ e := fun hx => he2 (by simp [hx])
          have hcp : c ≠ p := fun hx => hd12 p hpm (by simp [← hx])
          refine ⟨⟨q.head, q.tail,
            setLink (setLink (setLink q.links p ⟨(q.links p).prev, Ptr.elt c⟩) c
              ⟨Ptr.elt p, (q.links c).next⟩) e ⟨Ptr.minus1, Ptr.minus1⟩⟩,
            ?_, ?_, ?_, ?_, ?_⟩
          · simp [unlinkFull, unlinkBody, hep0, hen0, heqp,
              setLink_ne _ _ _ _ hcp]
          · exact hnd'
          · rw [chainOk_append_iff]
            constructor
            · have h1 : chainOk
                  (setLink q.links p ⟨(q.links p).prev, Ptr.elt c⟩) Ptr.null
                  (Ptr.elt c) (a :: l1'') = true :=
                chainOk_retarget q.links (Ptr.elt e) (Ptr.elt c) p (a :: l1'')
                  Ptr.null hnd.1 hcl1' hpl hpm
              rw [chainOk_congr
                (setLink q.links p ⟨(q.links p).prev, Ptr.elt c⟩)]
              · simpa [headPtr2] using h1
              · intro x hx
                have hxe : x ≠ e := fun hy => he1 (hy ▸ hx)
                have hxc : x ≠ c := fun hy => hd12 x hx (by simp [hy])
                simp [setLink_ne _ _ _ _ hxe, setLink_ne _ _ _ _ hxc]
            · have h2 : chainOk
                  (setLink q.links c ⟨Ptr.elt p, (q.links c).next⟩) (Ptr.elt p)
                  Ptr.null (c :: l2') = true :=
                chainOk_reroot q.links (Ptr.elt e) (Ptr.elt p) Ptr.null c l2'
                  (List.nodup_cons.mp hl2nd).1 hcl2'
              rw [chainOk_congr
                (setLink q.links c ⟨Ptr.elt p, (q.links c).next⟩)]
              · simpa [hpl] using h2
              · intro x hx
                have hxe : x ≠ e := fun hy => he2 (hy ▸ hx)
                by_cases hxc : x = c
                · subst hxc
                  simp [setLink_ne _ _ _ _ hxe, setLink_self]
                · have hxp : x ≠ p := fun hy => hd12 x (hy ▸ hpm) hx
                  simp [setLink_ne _ _ _ _ hxe, setLink_ne _ _ _ _ hxc,
                    setLink_ne _ _ _ _ hxp]
          · simpa [headPtr2] using hh
          · rw [ht]
            simp [lastPtr_append, lastPtr]

theorem repr_not_mem (q : QueueState) (l : List Nat) (e : Nat)
    (hr : reprQ q l) (hnl : (q.links e).next = Ptr.minus1) : e ∉ l :=
  fun hm =>
    chainOk_not_minus1 q.links Ptr.null l (by simp) Ptr.null hr.2.1 e hm hnl

theorem repr_linked (q : QueueState) (l : List Nat) (e : Nat)
    (hr : reprQ q l) (hm : e ∈ l) : ISC_QLINK_LINKED q e = true := by
  simp only [ISC_QLINK_LINKED, decide_eq_true_eq]
  exact chainOk_not_minus1 q.links Ptr.null l (by simp) Ptr.null hr.2.1 e hm

theorem repr_inv (q : QueueState) (l : List Nat) (hr : reprQ q l) :
    queueInv q := by
  obtain ⟨hnd, hc, hh, ht⟩ := hr
  cases l with
  | nil =>
      simp [headPtr2] at hh
      simp [lastPtr] at ht
      exact ⟨by simp [ISC_QUEUE_EMPTY, hh, ht], fun h hx => by simp [hh] at hx,
        fun t hx => by simp [ht] at hx⟩
  | cons a r =>
      simp [headPtr2] at hh
      rw [chainOk_cons_iff] at hc
      refine ⟨by simp [ISC_QUEUE_EMPTY, hh], ?_, ?_⟩
      · intro h hx
        rw [hh] at hx
        have : h = a := by
          cases hx
          rfl
        rw [this]
        exact hc.1
      · intro t hx
        rw [ht] at hx
        refine chainOk_last_next q.links Ptr.null t (a :: r) Ptr.null ?_ hx
          (by simp)
        rw [chainOk_cons_iff]
        exact hc

theorem unlink_eq_full (ci : Bool) (q : QueueState) (e : Nat)
    (hl : ISC_QLINK_LINKED q e = true) :
    ISC_QUEUE_UNLINK ci q e = unlinkFull q e := by
  simp [ISC_QUEUE_UNLINK, hl]

theorem unlinkiflinked_eq_full (q : QueueState) (e : Nat)
    (hl : ISC_QLINK_LINKED q e = true) :
    ISC_QUEUE_UNLINKIFLINKED q e = unlinkFull q e := by
  simp [ISC_QUEUE_UNLINKIFLINKED, hl]

theorem setLink_idem (ls : Nat → Link) (i : Nat) (v : Link) :
    setLink (setLink ls i v) i v = setLink ls i v := by
  funext j
  by_cases h : j = i <;> simp [setLink, h]

/-! ## Claim theorems for the queue -/

/-- Claim C3: popping an empty queue (`head == NULL`) returns the
explicit NULL "empty" result, never faults, and leaves the whole queue
state — in particular `head` and `tail` — unchanged. -/
theorem queue_pop_empty_returns_null :
    ∀ q : QueueState, q.head = Ptr.null →
      ISC_QUEUE_POP q = some (Ptr.null, q) := by
  intro q hh
  simp [ISC_QUEUE_POP, hh]

/-- Claim C3, witness: popping a freshly initialized queue. -/
theorem queue_pop_empty_returns_null_holds :
    ISC_QUEUE_POP (ISC_QUEUE_INIT allFree) =
      some (Ptr.null, ISC_QUEUE_INIT allFree) :=
  queue_pop_empty_returns_null (ISC_QUEUE_INIT allFree) rfl

/-- Claim C4: on an empty queue (`head == tail == NULL`), pushing a
not-linked element `e` and then popping returns exactly `e`, resets `e`'s
link fields to the not-linked sentinel, and leaves the queue empty again
(`is_empty() == true`, `head == tail == NULL`), with every other
element's links untouched. -/
theorem queue_push_then_pop_roundtrip :
    ∀ (ci : Bool) (q : QueueState) (e : Nat),
      q.head = Ptr.null → q.tail = Ptr.null →
      (q.links e).next = Ptr.minus1 →
      ∃ q' q'', ISC_QUEUE_PUSH ci q e = some q' ∧
        ISC_QUEUE_POP q' = some (Ptr.elt e, q'') ∧
        ISC_QUEUE_EMPTY q'' = true ∧
        q''.head = Ptr.null ∧ q''.tail = Ptr.null ∧
        q''.links e = ⟨Ptr.minus1, Ptr.minus1⟩ ∧
        (∀ x, x ≠ e → q''.links x = q.links x) := by
  intro ci q e hh ht hnl
  have hguard : ISC_QLINK_LINKED q e = false := by
    simp [ISC_QLINK_LINKED, hnl]
  refine ⟨⟨Ptr.elt e, Ptr.elt e, setLink q.links e ⟨Ptr.null, Ptr.null⟩⟩,
    ⟨Ptr.null, Ptr.null, setLink (setLink q.links e ⟨Ptr.null, Ptr.null⟩) e
      ⟨Ptr.minus1, Ptr.minus1⟩⟩, ?_, ?_, ?_, rfl, rfl, ?_, ?_⟩
  · simp [ISC_QUEUE_PUSH, hguard, ht, hh]
  · simp [ISC_QUEUE_POP, setLink_self]
  · simp [ISC_QUEUE_EMPTY]
  · simp [setLink_self]
  · intro x hx
    simp [setLink_ne _ _ _ _ hx]

/-- Claim C4, witness: the round trip on a freshly initialized queue and
element 3, under the checking build. -/
theorem queue_push_then_pop_roundtrip_holds :
    ∃ q' q'', ISC_QUEUE_PUSH true (ISC_QUEUE_INIT allFree) 3 = some q' ∧
      ISC_QUEUE_POP q' = some (Ptr.elt 3, q'') ∧
      ISC_QUEUE_EMPTY q'' = true ∧
      q''.head = Ptr.null ∧ q''.tail = Ptr.null ∧
      q''.links 3 = ⟨Ptr.minus1, Ptr.minus1⟩ ∧
      (∀ x, x ≠ 3 → q''.links x = (ISC_QUEUE_INIT allFree).links x) :=
  queue_push_then_pop_roundtrip true (ISC_QUEUE_INIT allFree) 3 rfl rfl rfl

/-- Claim C6 counterexample: in the default build (no
`ISC_QUEUE_CHECKINIT`), pushing the already-linked element 5 of `qOne`
does not fault: `ISC_QLINK_INSIST` expands to `(void)0` and the push
returns normally, so the claim that pushing a linked element always
halts the program is false. -/
theorem queue_push_linked_no_fault_without_checkinit :
    ISC_QLINK_LINKED qOne 5 = true ∧
    (ISC_QUEUE_PUSH false qOne 5).isSome = true :=
  ⟨rfl, rfl⟩

/-- Claim C6 (amended): pushing a currently linked element is a fatal
assertion fault exactly in builds that define `ISC_QUEUE_CHECKINIT`;
without that macro the `ISC_QLINK_INSIST` check expands to `(void)0` and
the push proceeds without fault (whenever the tail pointer is
dereferenceable). -/
theorem queue_push_linked_insist_checkinit :
    ∀ (q : QueueState) (e : Nat), ISC_QLINK_LINKED q e = true →
      ISC_QUEUE_PUSH true q e = none ∧
      (q.tail ≠ Ptr.minus1 → (ISC_QUEUE_PUSH false q e).isSome = true) := by
  intro q e hl
  constructor
  · simp [ISC_QUEUE_PUSH, hl]
  · intro htm
    cases hq : q.tail with
    | null =>
        by_cases hh : q.head = Ptr.null <;>
          simp [ISC_QUEUE_PUSH, hq, hh]
    | minus1 => exact absurd hq htm
    | elt t => simp [ISC_QUEUE_PUSH, hq]

/-- Claim C6 (amended), witness: both behaviours at the concrete
one-element queue `qOne` and its linked element 5. -/
theorem queue_push_linked_insist_checkinit_holds :
    ISC_QUEUE_PUSH true qOne 5 = none ∧
    (ISC_QUEUE_PUSH false qOne 5).isSome = true := by
  have h := queue_push_linked_insist_checkinit qOne 5 rfl
  exact ⟨h.1, h.2 (by decide)⟩

/-- Claim C8: when `e` is not currently linked, `unlink_if_linked` does
not fault and is a no-op on the queue: `head`, `tail` and the links of
every element other than `e` (hence of every element of the queue, since
an unlinked `e` is in no represented queue) are unchanged, `e`'s `next`
stays the sentinel, and running the operation a second time yields the
same state (idempotence). -/
theorem queue_unlinkiflinked_noop_when_unlinked :
    ∀ (q : QueueState) (e : Nat), ISC_QLINK_LINKED q e = false →
      ∃ q', ISC_QUEUE_UNLINKIFLINKED q e = some q' ∧
        q'.head = q.head ∧ q'.tail = q.tail ∧
        (∀ x, x ≠ e → q'.links x = q.links x) ∧
        (q'.links e).next = (q.links e).next ∧
        (∀ l, reprQ q l → e ∉ l) ∧
        ISC_QUEUE_UNLINKIFLINKED q' e = some q' := by
  intro q e hl
  have hnl : (q.links e).next = Ptr.minus1 := by
    simpa [ISC_QLINK_LINKED] using hl
  refine ⟨{ q with links := setLink q.links e ⟨Ptr.minus1, Ptr.minus1⟩ },
    ?_, rfl, rfl, ?_, ?_, ?_, ?_⟩
  · simp [ISC_QUEUE_UNLINKIFLINKED, ISC_QLINK_LINKED, hnl]
  · intro x hx
    exact setLink_ne _ _ _ _ hx
  · simp [setLink_self, hnl]
  · intro l hr
    exact repr_not_mem q l e hr hnl
  · have h2 : ISC_QLINK_LINKED
        { q with links := setLink q.links e ⟨Ptr.minus1, Ptr.minus1⟩ } e
          = false := by
      simp [ISC_QLINK_LINKED, setLink_self]
    simp [ISC_QUEUE_UNLINKIFLINKED, h2, setLink_idem]

/-- Claim C8, witness: the no-op on the one-element queue `qOne` and the
unlinked element 7. -/
theorem queue_unlinkiflinked_noop_when_unlinked_holds :
    ∃ q', ISC_QUEUE_UNLINKIFLINKED qOne 7 = some q' ∧
      q'.head = qOne.head ∧ q'.tail = qOne.tail ∧
      (∀ x, x ≠ 7 → q'.links x = qOne.links x) ∧
      (q'.links 7).next = (qOne.links 7).next ∧
      (∀ l, reprQ qOne l → 7 ∉ l) ∧
      ISC_QUEUE_UNLINKIFLINKED q' 7 = some q' :=
  queue_unlinkiflinked_noop_when_unlinked qOne 7 rfl

theorem repr_setLink_sentinel (q : QueueState) (l : List Nat) (e : Nat)
    (hr : reprQ q l) (hem : e ∉ l) :
    reprQ { q with links := setLink q.links e ⟨Ptr.minus1, Ptr.minus1⟩ } l := by
  obtain ⟨hnd, hc, hh, ht⟩ := hr
  refine ⟨hnd, ?_, hh, ht⟩
  rw [chainOk_congr q.links]
  · exact hc
  · intro x hx
    exact setLink_ne _ _ _ _ (fun hxe => hem (hxe ▸ hx))

/-- Claim C5: the queue is FIFO.  With `reprQ q l` abstracting the
linked structure as the element list `l`, a push appends its element at
the tail (`l ++ [e]`) and a pop removes and returns the head of `l` (the
earliest-pushed element still in the queue); hence over any sequence of
pushes and pops the elements popped are the elements pushed, in push
order. -/
theorem queue_fifo_refinement :
    ∀ (ci : Bool) (q : QueueState) (l : List Nat) (e : Nat), reprQ q l →
      ((q.links e).next = Ptr.minus1 →
        ∃ q', ISC_QUEUE_PUSH ci q e = some q' ∧ reprQ q' (l ++ [e])) ∧
      (l = [] → ISC_QUEUE_POP q = some (Ptr.null, q)) ∧
      (∀ a r, l = a :: r →
        ∃ q', ISC_QUEUE_POP q = some (Ptr.elt a, q') ∧ reprQ q' r) := by
  intro ci q l e hr
  refine ⟨fun hnl => push_repr ci q l e hr hnl,
    fun hl => pop_repr_nil q (hl ▸ hr), fun a r hl => ?_⟩
  obtain ⟨q', h1, h2, _⟩ := pop_repr_cons q a r (hl ▸ hr)
  exact ⟨q', h1, h2⟩

/-- Claim C5, witness: on the concrete one-element queue `qOne`
(representing `[5]`), pop returns element 5 and leaves a queue
representing `[]`. -/
theorem queue_fifo_refinement_holds :
    ∃ q', ISC_QUEUE_POP qOne = some (Ptr.elt 5, q') ∧ reprQ q' [] :=
  (queue_fifo_refinement true qOne [5] 0
    ⟨by decide, by decide, rfl, rfl⟩).2.2 5 [] rfl

/-- Claim C7: the structural invariant — the queue is empty exactly when
`head == tail == NULL`, and in a non-empty queue the head's `prev` and
the tail's `next` are NULL — holds after `init` and is preserved by
`push` (of a not-linked element), `pop`, `unlink` (of a member) and
`unlink_if_linked` (of a member or a not-linked element), starting from
any well-formed queue. -/
theorem queue_invariant_preserved :
    (∀ ls : Nat → Link, queueInv (ISC_QUEUE_INIT ls)) ∧
    (∀ (ci : Bool) (q : QueueState) (l : List Nat) (e : Nat), reprQ q l →
      ((q.links e).next = Ptr.minus1 →
        ∃ q', ISC_QUEUE_PUSH ci q e = some q' ∧ queueInv q') ∧
      (∃ rtn q', ISC_QUEUE_POP q = some (rtn, q') ∧ queueInv q') ∧
      (e ∈ l → ∃ q', ISC_QUEUE_UNLINK ci q e = some q' ∧ queueInv q') ∧
      ((e ∈ l ∨ (q.links e).next = Ptr.minus1) →
        ∃ q', ISC_QUEUE_UNLINKIFLINKED q e = some q' ∧ queueInv q')) := by
  constructor
  · intro ls
    refine ⟨by simp [ISC_QUEUE_EMPTY, ISC_QUEUE_INIT], ?_, ?_⟩
    · intro h hx
      simp [ISC_QUEUE_INIT] at hx
    · intro t hx
      simp [ISC_QUEUE_INIT] at hx
  · intro ci q l e hr
    refine ⟨?_, ?_, ?_, ?_⟩
    · intro hnl
      obtain ⟨q', h1, h2⟩ := push_repr ci q l e hr hnl
      exact ⟨q', h1, repr_inv q' (l ++ [e]) h2⟩
    · cases l with
      | nil => exact ⟨Ptr.null, q, pop_repr_nil q hr, repr_inv q [] hr⟩
      | cons a r =>
          obtain ⟨q', h1, h2, _⟩ := pop_repr_cons q a r hr
          exact ⟨Ptr.elt a, q', h1, repr_inv q' r h2⟩
    · intro he
      obtain ⟨l1, l2, rfl⟩ := List.append_of_mem he
      rw [unlink_eq_full ci q e (repr_linked q _ e hr he)]
      obtain ⟨q', h1, h2⟩ := unlinkFull_repr q l1 l2 e hr
      exact ⟨q', h1, repr_inv q' (l1 ++ l2) h2⟩
    · intro hor
      rcases hor with he | hnl
      · obtain ⟨l1, l2, rfl⟩ := List.append_of_mem he
        rw [unlinkiflinked_eq_full q e (repr_linked q _ e hr he)]
        obtain ⟨q', h1, h2⟩ := unlinkFull_repr q l1 l2 e hr
        exact ⟨q', h1, repr_inv q' (l1 ++ l2) h2⟩
      · have hl : ISC_QLINK_LINKED q e = false := by
          simp [ISC_QLINK_LINKED, hnl]
        refine ⟨{ q with links := setLink q.links e ⟨Ptr.minus1, Ptr.minus1⟩ },
          by simp [ISC_QUEUE_UNLINKIFLINKED, hl], ?_⟩
        exact repr_inv _ l
          (repr_setLink_sentinel q l e hr (repr_not_mem q l e hr hnl))

/-- Claim C7, witness: the invariant after unlinking element 5 from the
concrete one-element queue `qOne`, under the checking build. -/
theorem queue_invariant_preserved_holds :
    ∃ q', ISC_QUEUE_UNLINK true qOne 5 = some q' ∧ queueInv q' :=
  (queue_invariant_preserved.2 true qOne [5] 5
    ⟨by decide, by decide, rfl, rfl⟩).2.2.1 (by decide)

/-! ## Claim theorem for the reader-writer lock -/

/-- Claim C9: in every reachable state of the (spec-modelled)
reader-writer lock, at most one thread holds the lock in write mode, and
while a writer holds it no thread holds it in read mode — a writer's
critical section never overlaps a reader's or another writer's. -/
theorem rwlock_write_mutual_exclusion :
    ∀ s : RwState, RwReach s → rwMutex s := by
  intro s hs
  induction hs with
  | start =>
      exact ⟨fun t u ht _ => by simp [rwInit] at ht,
        fun t u ht => by simp [rwInit] at ht⟩
  | next s s' hr hstep ih =>
      cases hstep with
      | lockRead t hfree hnw =>
          constructor
          · intro a b ha hb
            by_cases hat : a = t
            · simp [setMode, hat] at ha
            · simp [setMode, hat] at ha
              exact absurd ha (hnw a)
          · intro a b ha
            by_cases hat : a = t
            · simp [setMode, hat] at ha
            · simp [setMode, hat] at ha
              exact absurd ha (hnw a)
      | lockWrite t hfree hall =>
          constructor
          · intro a b ha hb
            by_cases hat : a = t
            · by_cases hbt : b = t
              · rw [hat, hbt]
              · simp [setMode, hbt] at hb
                rw [hall b] at hb
                cases hb
            · simp [setMode, hat] at ha
              rw [hall a] at ha
              cases ha
          · intro a b ha hb
            by_cases hbt : b = t
            · simp [setMode, hbt] at hb
            · simp [setMode, hbt] at hb
              rw [hall b] at hb
              cases hb
      | unlockRead t htr =>
          constructor
          · intro a b ha hb
            by_cases hat : a = t
            · simp [setMode, hat] at ha
            · by_cases hbt : b = t
              · simp [setMode, hbt] at hb
              · simp [setMode, hat] at ha
                simp [setMode, hbt] at hb
                exact ih.1 a b ha hb
          · intro a b ha
            by_cases hat : a = t
            · simp [setMode, hat] at ha
            · simp [setMode, hat] at ha
              exact absurd htr (ih.2 a t ha)
      | unlockWrite t htw =>
          constructor
          · intro a b ha hb
            by_cases hat : a = t
            · simp [setMode, hat] at ha
            · by_cases hbt : b = t
              · simp [setMode, hbt] at hb
              · simp [setMode, hat] at ha
                simp [setMode, hbt] at hb
                exact ih.1 a b ha hb
          · intro a b ha
            by_cases hat : a = t
            · simp [setMode, hat] at ha
            · simp [setMode, hat] at ha
              have := ih.1 a t ha htw
              exact absurd this hat
      | tryupgrade t htr hsol =>
          constructor
          · intro a b ha hb
            by_cases hat : a = t
            · by_cases hbt : b = t
              · rw [hat, hbt]
              · simp [setMode, hbt] at hb
                rw [hsol b hbt] at hb
                cases hb
            · simp [setMode, hat] at ha
              rw [hsol a hat] at ha
              cases ha
          · intro a b ha hb
            by_cases hbt : b = t
            · simp [setMode, hbt] at hb
            · simp [setMode, hbt] at hb
              rw [hsol b hbt] at hb
              cases hb
      | downgrade t htw =>
          constructor
          · intro a b ha hb
            by_cases hat : a = t
            · simp [setMode, hat] at ha
            · simp [setMode, hat] at ha
              have := ih.1 a t ha htw
              exact absurd this hat
          · intro a b ha
            by_cases hat : a = t
            · simp [setMode, hat] at ha
            · simp [setMode, hat] at ha
              have := ih.1 a t ha htw
              exact absurd this hat

/-- Claim C9, witness: the mutual-exclusion property at the concrete
reachable state in which thread 0 has acquired the write lock from the
initial state. -/
theorem rwlock_write_mutual_exclusion_holds :
    rwMutex ⟨setMode rwInit.holders 0 RwMode.write⟩ :=
  rwlock_write_mutual_exclusion ⟨setMode rwInit.holders 0 RwMode.write⟩
    (RwReach.next rwInit ⟨setMode rwInit.holders 0 RwMode.write⟩
      RwReach.start
      (RwStep.lockWrite rwInit 0 rfl (fun _ => rfl)))

/-! ## Claim theorems for the reference counter -/

/-- Claim C1: on a counter freshly initialized by `init(ref, 0)`,
`increment0` succeeds (no fault) with new count 1, written through
`targetp` when it is non-NULL; `increment` on the same fresh counter
faults, because it requires the prior value to be positive while
`increment0` permits a prior value of 0. -/
theorem refcount_fresh_counter_increment0_vs_increment :
    (∀ tp : Bool,
      (isc_refcount_increment0 (isc_refcount_init 0) tp).1.refs = 1) ∧
    (isc_refcount_increment0 (isc_refcount_init 0) true).2 = some 1 ∧
    (isc_refcount_increment0 (isc_refcount_init 0) false).2 = none ∧
    (∀ tp : Bool, isc_refcount_increment (isc_refcount_init 0) tp = none) := by
  refine ⟨fun tp => rfl, rfl, rfl, fun tp => rfl⟩

/-- Claim C2: `decrement` requires the prior count to be positive (prior
0 is a fault) and otherwise yields `prior - 1`, written through `targetp`
when non-NULL; a `decrement` that brings the count to 0 followed
immediately by `destroy` succeeds, while `destroy` on a non-zero count
faults. -/
theorem refcount_decrement_then_destroy :
    ∀ (rp : isc_refcount) (tp : Bool),
      (rp.refs > 0 →
        isc_refcount_decrement rp tp =
          some (⟨rp.refs - 1⟩, if tp then some (rp.refs - 1) else none)) ∧
      (¬ rp.refs > 0 → isc_refcount_decrement rp tp = none) ∧
      (rp.refs = 1 →
        ∃ r, isc_refcount_decrement rp tp = some r ∧
          isc_refcount_destroy r.1 = some ()) ∧
      (rp.refs ≠ 0 → isc_refcount_destroy rp = none) := by
  intro rp tp
  refine ⟨fun h => ?_, fun h => ?_, fun h => ?_, fun h => ?_⟩
  · simp [isc_refcount_decrement, h]
  · simp [isc_refcount_decrement, h]
  · refine ⟨(⟨rp.refs - 1⟩, if tp then some (rp.refs - 1) else none), ?_, ?_⟩
    · simp [isc_refcount_decrement, h]
    · simp [isc_refcount_destroy, isc_refcount_current, h]
  · simp [isc_refcount_destroy, isc_refcount_current, h]

/-- Claim C2, witness: the general theorem applied at the concrete
counters 1 (decrement to 0, then destroy succeeds) and 2 (destroy
faults). -/
theorem refcount_decrement_then_destroy_holds :
    isc_refcount_decrement ⟨1⟩ true = some (⟨0⟩, some 0) ∧
    isc_refcount_destroy ⟨0⟩ = some () ∧
    isc_refcount_destroy ⟨2⟩ = none := by
  have h1 := (refcount_decrement_then_destroy ⟨1⟩ true).1 (by decide)
  have h2 := (refcount_decrement_then_destroy ⟨1⟩ true).2.2.1 rfl
  have h3 := (refcount_decrement_then_destroy ⟨2⟩ true).2.2.2 (by decide)
  obtain ⟨r, hr, hd⟩ := h2
  refine ⟨by simpa using h1, ?_, h3⟩
  have hr0 : r = (⟨0⟩, some 0) := by
    have := hr.symm.trans (by simpa using h1)
    simpa using Option.some.inj this
  simpa [hr0] using hd

theorem wrap32_eq_self (n : Int) (h1 : -2147483648 ≤ n)
    (h2 : n < 2147483648) : wrap32 n = n := by
  unfold wrap32
  have h3 : (0 : Int) ≤ n + 2147483648 := by omega
  have h4 : n + 2147483648 < 4294967296 := by omega
  rw [Int.emod_eq_of_lt h3 h4]
  omega

/-- Claim C10 counterexample: at the prior value `INT32_MAX =
2147483647`, the 32-bit atomic fetch-add of `increment0` wraps the
counter to `INT32_MIN = -2147483648`, so the new count is not
`prior + 1` — the claim's "for every prior value ... yields prior+1" is
false at this input (although no fault occurs there either). -/
theorem refcount_increment0_wraps_at_int32_max :
    (isc_refcount_increment0_i32 ⟨2147483647⟩ true).1.refs = -2147483648 ∧
    ¬ (isc_refcount_increment0_i32 ⟨2147483647⟩ true).1.refs
        = 2147483647 + 1 := by
  constructor
  · decide
  · decide

/-- Claim C10 (amended): `increment0` performs no check whatsoever on
the prior count: for every representable prior value of the 32-bit
counter, including negative values, it succeeds without faulting; the
new count is `prior + 1` for every prior below `INT32_MAX`, while at
`INT32_MAX` the 32-bit atomic fetch-add wraps the counter to
`INT32_MIN`; only `increment` and `decrement` carry the `prior > 0`
precondition (they fault exactly when the prior value is not
positive). -/
theorem refcount_increment0_unchecked_i32 :
    ∀ (prev : Int) (tp : Bool), -2147483648 ≤ prev → prev < 2147483648 →
      (prev < 2147483647 →
        (isc_refcount_increment0_i32 ⟨prev⟩ tp).1.refs = prev + 1) ∧
      (prev = 2147483647 →
        (isc_refcount_increment0_i32 ⟨prev⟩ tp).1.refs = -2147483648) ∧
      ((isc_refcount_increment0_i32 ⟨prev⟩ tp).2
        = (if tp then some (wrap32 (prev + 1)) else none)) ∧
      (isc_refcount_increment_i32 ⟨prev⟩ tp = none ↔ prev ≤ 0) ∧
      (isc_refcount_decrement_i32 ⟨prev⟩ tp = none ↔ prev ≤ 0) := by
  intro prev tp h1 h2
  refine ⟨?_, ?_, rfl, ?_, ?_⟩
  · intro hlt
    show wrap32 (prev + 1) = prev + 1
    exact wrap32_eq_self (prev + 1) (by omega) (by omega)
  · intro heq
    subst heq
    show wrap32 (2147483647 + 1) = -2147483648
    decide
  · constructor
    · intro h
      by_contra hp
      simp [isc_refcount_increment_i32, lt_of_not_le hp] at h
    · intro h
      simp [isc_refcount_increment_i32, not_lt.mpr h]
  · constructor
    · intro h
      by_contra hp
      simp [isc_refcount_decrement_i32, lt_of_not_le hp] at h
    · intro h
      simp [isc_refcount_decrement_i32, not_lt.mpr h]

/-- Claim C10 (amended), witness: the amended theorem applied at the
concrete representable priors 5 (ordinary increment), -3 (negative
prior, still no fault), `INT32_MAX` (wrap to `INT32_MIN`) and 0 (where
`increment` faults). -/
theorem refcount_increment0_unchecked_i32_holds :
    (isc_refcount_increment0_i32 ⟨5⟩ true).1.refs = 5 + 1 ∧
    (isc_refcount_increment0_i32 ⟨-3⟩ true).1.refs = -3 + 1 ∧
    (isc_refcount_increment0_i32 ⟨2147483647⟩ true).1.refs = -2147483648 ∧
    isc_refcount_increment_i32 ⟨0⟩ true = none := by
  have h5 := refcount_increment0_unchecked_i32 5 true (by decide) (by decide)
  have hm := refcount_increment0_unchecked_i32 (-3) true (by decide) (by decide)
  have hx := refcount_increment0_unchecked_i32 2147483647 true (by decide)
    (by decide)
  have h0 := refcount_increment0_unchecked_i32 0 true (by decide) (by decide)
  exact ⟨h5.1 (by decide), hm.1 (by decide), hx.2.1 rfl,
    (h0.2.2.2.1).mpr (by decide)⟩
